/-
Verification of the acquisition and download-lifecycle engine of the
roundup media automation service.

The Rust sources are shallowly embedded: each Rust function relevant to a
verified property is translated into an executable Lean definition over
plain inductive data (machine integers become Int/Nat, fallible calls
become Except/Option, the persisted store becomes an explicit list of
rows).  Theorems then settle the specified properties against these
definitions.
-/
import Mathlib

namespace Roundup

/-! ## Core data model (src/api/torrent.rs, src/api/imdb.rs,
     src/api/torrent_client/mod.rs) -/

/-- `MediaQuality` from src/api/torrent.rs.  The constructor order is the
Rust declaration order, which fixes the derived `Ord` instance and the
`as u8` discriminants used by the quality floor filter. -/
inductive MediaQuality where
  | unknown
  | cam
  | telesync
  | q480p
  | q720p
  | q1080p
  | betterThan1080p
  | q2160p
  | q4320p
deriving DecidableEq, Repr, Fintype

/-- The `as u8` cast of a `MediaQuality` value: its declaration-order
discriminant. -/
def MediaQuality.toU8 : MediaQuality → Nat
  | .unknown => 0
  | .cam => 1
  | .telesync => 2
  | .q480p => 3
  | .q720p => 4
  | .q1080p => 5
  | .betterThan1080p => 6
  | .q2160p => 7
  | .q4320p => 8

/-- The derived total order on `MediaQuality` (Rust `derive(Ord)`):
declaration order, i.e. comparison of discriminants. -/
def MediaQuality.le (a b : MediaQuality) : Bool := a.toU8 ≤ b.toU8

/-- Strict form of the derived order on `MediaQuality`. -/
def MediaQuality.lt (a b : MediaQuality) : Bool := a.toU8 < b.toU8

/-- `ItemType` from src/api/imdb.rs. -/
inductive ItemType where
  | movie
  | tvShow
deriving DecidableEq, Repr

/-- `IMDBEpisode` from src/api/imdb.rs. -/
structure IMDBEpisode where
  id : String
  season : Int
  episode : Int
deriving DecidableEq, Repr

/-- `TorrentItem` from src/api/torrent.rs. -/
structure TorrentItem where
  imdb_id : String
  name : String
  magnet_uri : String
  quality : MediaQuality
  itemType : ItemType
  season : Option Int
  episode : Option Int
  seeds : Option Nat
  source : String
deriving DecidableEq, Repr

/-- `TorrentState` from src/api/torrent_client/mod.rs. -/
inductive TorrentState where
  | starting
  | downloading
  | stalled
  | paused
  | completed
  | uploading
  | stalledUpload
  | error (reason : Option String)
  | other (label : String)
deriving DecidableEq, Repr

/-! ## C2: quality floor filter in find_torrent
     (src/api/torrent.rs, `Torrenter::find_torrent`) -/

/-- The post-provider quality filter of `Torrenter::find_torrent`
(src/api/torrent.rs): keep an item when
`(item.quality as u8) >= (self.min_quality as u8)`. -/
def qualityFloorFilter (minQuality : MediaQuality) (items : List TorrentItem) :
    List TorrentItem :=
  items.filter (fun item => item.quality.toU8 ≥ minQuality.toU8)

/-- One provider task outcome, as seen by `find_torrent`: either the
provider's item list or a provider error message. -/
abbrev ProviderResult := Except String (List TorrentItem)

/-- Concurrent branch of `Torrenter::find_torrent` (src/api/torrent.rs):
all provider tasks are awaited, each errored or empty result is skipped,
each non-empty result is quality filtered and kept only when the filtered
list is non-empty, and the concatenation of the survivors is returned;
an empty concatenation falls through to the final error. -/
def concurrentMerged (minQuality : MediaQuality)
    (results : List ProviderResult) : List TorrentItem :=
  results.flatMap (fun task =>
    match task with
    | .ok r =>
        if r.isEmpty then []
        else
          if !(qualityFloorFilter minQuality r).isEmpty then
            qualityFloorFilter minQuality r
          else []
    | .error _ => [])

def findTorrentConcurrent (minQuality : MediaQuality)
    (results : List ProviderResult) : Except String (List TorrentItem) :=
  if !(concurrentMerged minQuality results).isEmpty then
    .ok (concurrentMerged minQuality results)
  else .error "No torrents found matching criteria"

/-- Sequential-fallback branch of `Torrenter::find_torrent`
(src/api/torrent.rs): providers are tried in order and the first
non-empty quality-filtered result is returned. -/
def findTorrentSequential (minQuality : MediaQuality)
    (results : List ProviderResult) : Except String (List TorrentItem) :=
  match results with
  | [] => .error "No torrents found matching criteria"
  | task :: rest =>
    match task with
    | .ok r =>
        if r.isEmpty then findTorrentSequential minQuality rest
        else
          if !(qualityFloorFilter minQuality r).isEmpty then
            .ok (qualityFloorFilter minQuality r)
          else findTorrentSequential minQuality rest
    | .error _ => findTorrentSequential minQuality rest

/-- Membership in the quality floor filter. -/
theorem mem_qualityFloorFilter (minQuality : MediaQuality)
    (items : List TorrentItem) (item : TorrentItem) :
    item ∈ qualityFloorFilter minQuality items ↔
      item ∈ items ∧ minQuality.toU8 ≤ item.quality.toU8 := by
  simp [qualityFloorFilter, List.mem_filter]

/-- Every item in a successful concurrent search output meets the floor. -/
theorem findTorrentConcurrent_sound (minQuality : MediaQuality)
    (results : List ProviderResult) (out : List TorrentItem)
    (item : TorrentItem) (hok : findTorrentConcurrent minQuality results = .ok out)
    (hmem : item ∈ out) : minQuality.toU8 ≤ item.quality.toU8 := by
  unfold findTorrentConcurrent at hok
  split at hok
  · obtain rfl : _ = out := Except.ok.inj hok
    obtain ⟨task, _, hitem⟩ := List.mem_flatMap.mp hmem
    match task with
    | .error e => simp [concurrentMerged] at hitem
    | .ok r =>
      simp only at hitem
      split at hitem
      · simp at hitem
      · split at hitem
        · exact ((mem_qualityFloorFilter minQuality r item).mp hitem).2
        · simp at hitem
  · exact absurd hok (by simp)

/-- Every item in a successful sequential search output meets the floor. -/
theorem findTorrentSequential_sound (minQuality : MediaQuality)
    (results : List ProviderResult) (out : List TorrentItem)
    (item : TorrentItem) (hok : findTorrentSequential minQuality results = .ok out)
    (hmem : item ∈ out) : minQuality.toU8 ≤ item.quality.toU8 := by
  induction results with
  | nil => exact absurd hok (by simp [findTorrentSequential])
  | cons task rest ih =>
    unfold findTorrentSequential at hok
    match task with
    | .error e => exact ih hok
    | .ok r =>
      simp only at hok
      split at hok
      · exact ih hok
      · split at hok
        · obtain rfl : _ = out := Except.ok.inj hok
          exact ((mem_qualityFloorFilter minQuality r item).mp hmem).2
        · exact ih hok

/-- C2: the post-provider filter keeps a candidate exactly when its
quality is at least the configured floor under the declared total order
Unknown < Cam < Telesync < 480p < 720p < 1080p < BetterThan1080p <
2160p < 4320p (BetterThan1080p strictly between 1080p and 2160p), and
both the concurrent and the sequential search mode only emit candidates
passing this filter. -/
theorem c2_quality_floor_filter :
    (∀ (minQuality : MediaQuality) (items : List TorrentItem)
        (item : TorrentItem),
        item ∈ qualityFloorFilter minQuality items ↔
          item ∈ items ∧ MediaQuality.le minQuality item.quality = true) ∧
    (MediaQuality.lt .unknown .cam = true ∧
      MediaQuality.lt .cam .telesync = true ∧
      MediaQuality.lt .telesync .q480p = true ∧
      MediaQuality.lt .q480p .q720p = true ∧
      MediaQuality.lt .q720p .q1080p = true ∧
      MediaQuality.lt .q1080p .betterThan1080p = true ∧
      MediaQuality.lt .betterThan1080p .q2160p = true ∧
      MediaQuality.lt .q2160p .q4320p = true) ∧
    (∀ a b : MediaQuality, MediaQuality.le a b = true ∨
      MediaQuality.le b a = true) ∧
    (∀ (minQuality : MediaQuality) (results : List ProviderResult)
        (out : List TorrentItem) (item : TorrentItem),
        findTorrentConcurrent minQuality results = .ok out → item ∈ out →
          MediaQuality.le minQuality item.quality = true) ∧
    (∀ (minQuality : MediaQuality) (results : List ProviderResult)
        (out : List TorrentItem) (item : TorrentItem),
        findTorrentSequential minQuality results = .ok out → item ∈ out →
          MediaQuality.le minQuality item.quality = true) := by
  refine ⟨?_, by decide, by decide, ?_, ?_⟩
  · intro minQuality items item
    rw [mem_qualityFloorFilter]
    simp [MediaQuality.le]
  · intro minQuality results out item hok hmem
    simpa [MediaQuality.le] using
      findTorrentConcurrent_sound minQuality results out item hok hmem
  · intro minQuality results out item hok hmem
    simpa [MediaQuality.le] using
      findTorrentSequential_sound minQuality results out item hok hmem

/-- A concrete 1080p torrent item used by witnesses. -/
def sampleItem1080 : TorrentItem :=
  { imdb_id := "tt0111161"
    name := "Sample 1080p"
    magnet_uri := "magnet:?xt=urn:btih:aaaabbbbccccddddeeee&dn=sample"
    quality := .q1080p
    itemType := .movie
    season := none
    episode := none
    seeds := some 10
    source := "YTS" }

/-- Witness for C2 at a concrete input: the concurrent mode emits the
sample 1080p item over a 720p floor, so it passes the floor. -/
theorem c2_quality_floor_filter_witness :
    MediaQuality.le .q720p sampleItem1080.quality = true :=
  c2_quality_floor_filter.2.2.2.1 .q720p [Except.ok [sampleItem1080]]
    [sampleItem1080] sampleItem1080 (by rfl) (by simp)

/-! ## C9: normalized backend states and the monitor's completed branch
     (src/api/torrent_client/qbittorrent.rs, transmission.rs,
      src/api/torrent.rs `monitor_torrents`) -/

/-- `TorrentFilePriority` from src/api/torrent_client/mod.rs. -/
inductive TorrentFilePriority where
  | allowDownload
  | disallowDownload
deriving DecidableEq, Repr

/-- `TorrentFile` from src/api/torrent_client/mod.rs. -/
structure BackendTorrentFile where
  id : Int
  priority : TorrentFilePriority
  file_name : String
deriving DecidableEq, Repr

/-- `Torrent` from src/api/torrent_client/mod.rs (the `progress : f64`
field is floating point and plays no role in the verified claims, so it
is omitted). -/
structure BackendTorrent where
  id : Option Int
  hash : String
  state : TorrentState
  files : Option (List BackendTorrentFile)
deriving DecidableEq, Repr

/-- `qbittorrent::data::State`: the backend-native qBittorrent status
vocabulary matched by `QbittorrentWrapper::convert_state`. -/
inductive QbState where
  | error
  | missingFiles
  | uploading
  | pausedUP
  | queuedUP
  | stalledUP
  | checkingUP
  | forcedUP
  | allocating
  | downloading
  | metaDL
  | pausedDL
  | queuedDL
  | stalledDL
  | checkingDL
  | forceDL
  | checkingResumeData
  | moving
  | unknown
deriving DecidableEq, Repr, Fintype

/-- `QbittorrentWrapper::convert_state`
(src/api/torrent_client/qbittorrent.rs). -/
def convertState : QbState → TorrentState
  | .error => .error none
  | .missingFiles => .error (some "MissingFiles")
  | .uploading => .uploading
  | .pausedUP => .paused
  | .queuedUP => .paused
  | .stalledUP => .stalledUpload
  | .checkingUP => .other "CheckingUP"
  | .forcedUP => .uploading
  | .allocating => .other "Allocating"
  | .downloading => .downloading
  | .metaDL => .starting
  | .pausedDL => .paused
  | .queuedDL => .paused
  | .stalledDL => .stalled
  | .checkingDL => .other "CheckingDL"
  | .forceDL => .downloading
  | .checkingResumeData => .other "CheckingResumeData"
  | .moving => .other "Moving"
  | .unknown => .other "Unknown"

/-- `transmission_rpc::types::TorrentStatus`: the backend-native
Transmission status vocabulary. -/
inductive TransmissionStatus where
  | stopped
  | queuedToVerify
  | verifying
  | queuedToDownload
  | downloading
  | queuedToSeed
  | seeding
deriving DecidableEq, Repr, Fintype

/-- The status mapping inside `TransmissionWrapper::get_torrents`
(src/api/torrent_client/transmission.rs). -/
def transmissionConvertStatus : TransmissionStatus → TorrentState
  | .stopped => .paused
  | .queuedToVerify => .paused
  | .verifying => .other "Verify"
  | .queuedToDownload => .paused
  | .downloading => .downloading
  | .queuedToSeed => .paused
  | .seeding => .uploading

/-- The completed-job selection of `monitor_torrents`
(src/api/torrent.rs): the torrents whose state matches
`TorrentState::Completed`; their hashes are removed from the backend and
dropped from the filtered/stalled/auto sets. -/
def completedTorrents (torrents : List BackendTorrent) : List BackendTorrent :=
  torrents.filter (fun t => t.state = TorrentState.completed)

/-- C9: neither shipped backend implementation ever reports
`TorrentState::Completed` — every qBittorrent state and every
Transmission status converts to some other variant — so for any torrent
list obtained through these converters the monitor's completed-job
branch selects nothing. -/
theorem c9_completed_branch_unreachable :
    (∀ s : QbState, convertState s ≠ .completed) ∧
    (∀ s : TransmissionStatus, transmissionConvertStatus s ≠ .completed) ∧
    (∀ torrents : List BackendTorrent,
      (∀ t ∈ torrents,
        (∃ s, t.state = convertState s) ∨
          (∃ s, t.state = transmissionConvertStatus s)) →
      completedTorrents torrents = []) := by
  refine ⟨by decide, by decide, ?_⟩
  intro torrents hsrc
  rw [completedTorrents, List.filter_eq_nil_iff]
  intro t ht
  rcases hsrc t ht with ⟨s, hs⟩ | ⟨s, hs⟩ <;>
    simp only [hs, decide_eq_true_eq] <;> cases s <;>
    simp [convertState, transmissionConvertStatus]

/-- Witness for C9 at a concrete input: a list holding one torrent in
each converted state coming from `PausedUP` and from `Seeding` has no
completed entry. -/
theorem c9_completed_branch_unreachable_witness :
    completedTorrents
      [{ id := none, hash := "aaaa", state := convertState .pausedUP,
         files := none },
       { id := some 3, hash := "bbbb",
         state := transmissionConvertStatus .seeding, files := none }] = [] :=
  c9_completed_branch_unreachable.2.2 _ (by
    intro t ht
    simp only [List.mem_cons, List.not_mem_nil, or_false] at ht
    rcases ht with rfl | rfl
    · exact Or.inl ⟨.pausedUP, rfl⟩
    · exact Or.inr ⟨.seeding, rfl⟩)

/-! ## C10: magnet hash extraction
     (src/api/torrent.rs `Torrenter::start_download`,
      src/db/downloads.rs `DownloadDatabase::insert`) -/

/-- UTF-8 byte length of a character sequence (the length Rust's
`str::split_at` counts in). -/
def utf8Len (l : List Char) : Nat := (l.map Char.utf8Size).sum

/-- Rust `str::split_at(n).1`: the text after the first `n` bytes.
`none` models the panic raised when the string is shorter than `n`
bytes or byte `n` is not a character boundary. -/
def dropBytes : List Char → Nat → Option (List Char)
  | l, 0 => some l
  | [], _ + 1 => none
  | c :: cs, n + 1 =>
      if c.utf8Size ≤ n + 1 then dropBytes cs (n + 1 - c.utf8Size) else none

/-- Rust `str::split_once('&')` keeping only the text before the first
ampersand; `none` when the string holds no ampersand. -/
def splitOnceAmp (l : List Char) : Option (List Char) :=
  if l.contains '&' then some (l.takeWhile (fun c => c ≠ '&')) else none

/-- The magnet-hash extraction shared by `Torrenter::start_download`
(src/api/torrent.rs) and `DownloadDatabase::insert`
(src/db/downloads.rs):
`magnet_uri.split_at(20).1.split_once('&').unwrap().0.to_lowercase()`.
`none` models the two panic sites (`split_at` and the `unwrap`); the
surrounding functions have no error return for them. -/
def extractMagnetHash (magnet : List Char) : Option (List Char) :=
  match dropBytes magnet 20 with
  | none => none
  | some rest =>
    match splitOnceAmp rest with
    | none => none
    | some hash => some (hash.map Char.toLower)

/-- The shape a magnet URI must have for the extraction to return
normally: a 20-byte prefix ending on a character boundary, with an
ampersand somewhere after it. -/
def MagnetShape (magnet : List Char) : Prop :=
  ∃ p s, magnet = p ++ s ∧ utf8Len p = 20 ∧ '&' ∈ s

/-- `dropBytes` succeeds exactly on the suffix after a prefix of the
requested byte length. -/
theorem dropBytes_eq_some_iff (l : List Char) (n : Nat) (s : List Char) :
    dropBytes l n = some s ↔ ∃ p, l = p ++ s ∧ utf8Len p = n := by
  induction l generalizing n s with
  | nil =>
    cases n with
    | zero =>
      simp only [dropBytes, Option.some.injEq]
      constructor
      · rintro rfl
        exact ⟨[], rfl, rfl⟩
      · rintro ⟨p, hp, hlen⟩
        have : p = [] ∧ s = [] := by
          constructor
          · cases p with
            | nil => rfl
            | cons c cs => exact absurd hp.symm (by simp)
          · cases p with
            | nil => simpa using hp.symm
            | cons c cs => exact absurd hp.symm (by simp)
        exact this.2.symm
    | succ m =>
      simp only [dropBytes]
      constructor
      · intro h
        exact absurd h (by simp)
      · rintro ⟨p, hp, hlen⟩
        have hpnil : p = [] := by
          cases p with
          | nil => rfl
          | cons c cs => exact absurd hp.symm (by simp)
        subst hpnil
        simp [utf8Len] at hlen
  | cons c cs ih =>
    cases n with
    | zero =>
      simp only [dropBytes, Option.some.injEq]
      constructor
      · rintro rfl
        exact ⟨[], rfl, rfl⟩
      · rintro ⟨p, hp, hlen⟩
        have hpnil : p = [] := by
          cases p with
          | nil => rfl
          | cons d ds =>
            exfalso
            have hpos := Char.utf8Size_pos d
            simp [utf8Len] at hlen
            omega
        subst hpnil
        simpa using hp
    | succ m =>
      simp only [dropBytes]
      by_cases hle : c.utf8Size ≤ m + 1
      · rw [if_pos hle, ih]
        constructor
        · rintro ⟨p, hp, hlen⟩
          refine ⟨c :: p, by simpa using hp, ?_⟩
          simp only [utf8Len, List.map_cons, List.sum_cons] at hlen ⊢
          omega
        · rintro ⟨p, hp, hlen⟩
          cases p with
          | nil =>
            exfalso
            have hpos := Char.utf8Size_pos c
            simp [utf8Len] at hlen
          | cons d ds =>
            have hcd : d = c := by
              have := congrArg (fun l => l.head?) hp
              simpa using this.symm
            subst hcd
            refine ⟨ds, by simpa using hp, ?_⟩
            simp only [utf8Len, List.map_cons, List.sum_cons] at hlen ⊢
            omega
      · rw [if_neg hle]
        constructor
        · intro h
          exact absurd h (by simp)
        · rintro ⟨p, hp, hlen⟩
          exfalso
          cases p with
          | nil => simp [utf8Len] at hlen
          | cons d ds =>
            have hcd : d = c := by
              have := congrArg (fun l => l.head?) hp
              simpa using this.symm
            subst hcd
            have hpos : ∀ x ∈ ds.map Char.utf8Size, 0 ≤ x := by
              intro x _
              exact Nat.zero_le x
            simp only [utf8Len, List.map_cons, List.sum_cons] at hlen
            omega

/-- C10: the extraction returns normally exactly when the magnet URI has
the required shape — a byte-20 character boundary and an ampersand after
it; in particular any URI shorter than 20 bytes makes it panic
(`none`). -/
theorem c10_magnet_hash_panic (magnet : List Char) :
    (extractMagnetHash magnet = none ↔ ¬ MagnetShape magnet) ∧
    (utf8Len magnet < 20 → extractMagnetHash magnet = none) := by
  have hmain : extractMagnetHash magnet = none ↔ ¬ MagnetShape magnet := by
    constructor
    · intro h hshape
      obtain ⟨p, s, rfl, hlen, hamp⟩ := hshape
      have hdrop : dropBytes (p ++ s) 20 = some s :=
        (dropBytes_eq_some_iff (p ++ s) 20 s).mpr ⟨p, rfl, hlen⟩
      simp only [extractMagnetHash, hdrop, splitOnceAmp] at h
      rw [if_pos (by simpa using hamp)] at h
      simp at h
    · intro hshape
      cases hdrop : dropBytes magnet 20 with
      | none => simp [extractMagnetHash, hdrop]
      | some rest =>
        obtain ⟨p, hp, hlen⟩ := (dropBytes_eq_some_iff magnet 20 rest).mp hdrop
        by_cases hmem : '&' ∈ rest
        · exact absurd ⟨p, rest, hp, hlen, hmem⟩ hshape
        · simp [extractMagnetHash, hdrop, splitOnceAmp, hmem]
  refine ⟨hmain, fun hshort => hmain.mpr ?_⟩
  rintro ⟨p, s, rfl, hlen, -⟩
  have : utf8Len (p ++ s) = utf8Len p + utf8Len s := by
    simp [utf8Len]
  omega

/-- Witness for C10 at a concrete input: a magnet URI shorter than 20
bytes makes the extraction panic. -/
theorem c10_magnet_hash_panic_witness :
    extractMagnetHash (String.toList "magnet:?xt") = none :=
  (c10_magnet_hash_panic (String.toList "magnet:?xt")).2 (by decide)

/-! ## C5: stall hysteresis in monitor_torrents
     (src/api/torrent.rs, the `stalled_torrents.entry(..)` update) -/

/-- One per-job update of the monitor's stall map
(src/api/torrent.rs `monitor_torrents`): `and_modify` on an existing
`(state, time)` record — if the observed state differs, record it and
reset the time; else if the recorded state is Stalled and the time is at
most `now - 30` minutes, reset the time and queue the hash for
re-announce — and `or_insert((observed, now))` on a missing record.
Times are in minutes; the returned Bool is "queued for re-announce". -/
def stallStep (record : Option (TorrentState × Int)) (observed : TorrentState)
    (now : Int) : (TorrentState × Int) × Bool :=
  match record with
  | none => ((observed, now), false)
  | some (st, t) =>
    if st ≠ observed then ((observed, now), false)
    else if st = TorrentState.stalled ∧ t ≤ now - 30 then ((st, now), true)
    else ((st, t), false)

/-- C5: the stall timestamp resets whenever the observed state differs
from the recorded one; a job is queued for re-announce exactly when the
recorded state is Stalled, unchanged since last tick, and the timestamp
is at least 30 minutes old, and the timestamp resets at that moment; so
a job stalled at `t0` triggers nothing at `t0+29`, fires exactly at
`t0+30` with the timestamp reset to `t0+30`, and fires again only once
another 30 minutes have passed. -/
theorem c5_stall_hysteresis :
    (∀ (st : TorrentState) (t : Int) (observed : TorrentState) (now : Int),
        st ≠ observed →
          stallStep (some (st, t)) observed now = ((observed, now), false)) ∧
    (∀ (st : TorrentState) (t : Int) (observed : TorrentState) (now : Int),
        (stallStep (some (st, t)) observed now).2 = true ↔
          st = observed ∧ st = TorrentState.stalled ∧ 30 ≤ now - t) ∧
    (∀ (t now : Int),
        t ≤ now - 30 →
          stallStep (some (TorrentState.stalled, t)) TorrentState.stalled now =
            ((TorrentState.stalled, now), true)) ∧
    (∀ t0 : Int,
        stallStep none TorrentState.stalled t0 =
            ((TorrentState.stalled, t0), false) ∧
        stallStep (some (TorrentState.stalled, t0)) TorrentState.stalled
            (t0 + 29) = ((TorrentState.stalled, t0), false) ∧
        stallStep (some (TorrentState.stalled, t0)) TorrentState.stalled
            (t0 + 30) = ((TorrentState.stalled, t0 + 30), true) ∧
        (∀ now2 : Int,
          (stallStep (some (TorrentState.stalled, t0 + 30)) TorrentState.stalled
              now2).2 = true ↔ t0 + 60 ≤ now2)) := by
  refine ⟨?_, ?_, ?_, ?_⟩
  · intro st t observed now hne
    simp [stallStep, hne]
  · intro st t observed now
    by_cases heq : st = observed
    · subst heq
      by_cases hst : st = TorrentState.stalled
      · subst hst
        by_cases hle : t ≤ now - 30
        · have hstep : stallStep (some (TorrentState.stalled, t))
              TorrentState.stalled now = ((TorrentState.stalled, now), true) := by
            simp [stallStep, hle]
          rw [hstep]
          simp
          omega
        · have hstep : stallStep (some (TorrentState.stalled, t))
              TorrentState.stalled now = ((TorrentState.stalled, t), false) := by
            simp [stallStep, hle]
          rw [hstep]
          simp
          omega
      · simp [stallStep, hst]
    · have hstep : stallStep (some (st, t)) observed now =
          ((observed, now), false) := by
        simp [stallStep, heq]
      rw [hstep]
      simp [heq]
  · intro t now hle
    simp [stallStep, hle]
  · intro t0
    refine ⟨rfl, ?_, ?_, ?_⟩
    · simp [stallStep]
      omega
    · simp [stallStep]
    · intro now2
      by_cases hc : t0 + 30 ≤ now2 - 30
      · simp [stallStep, hc]
        omega
      · simp [stallStep, hc]
        omega

/-- Witness for C5 at a concrete input: a record that was Downloading
and is now observed Stalled resets to the new state with a fresh
timestamp and is not queued. -/
theorem c5_stall_hysteresis_witness :
    stallStep (some (TorrentState.downloading, 5)) TorrentState.stalled 7 =
      ((TorrentState.stalled, 7), false) :=
  c5_stall_hysteresis.1 TorrentState.downloading 5 TorrentState.stalled 7
    (by decide)

/-! ## C8: adjacent deduplication and its idempotence
     (src/api/eztv.rs and src/api/therarbg.rs `search`) -/

/-- Tail worker for `Vec::dedup_by`: `prev` is the last retained
element; a later element `y` with `same_bucket y prev` is dropped,
otherwise it is retained and becomes the new `prev`. -/
def dedupByKeep (r : α → α → Bool) (prev : α) : List α → List α
  | [] => []
  | y :: ys => if r y prev then dedupByKeep r prev ys else y :: dedupByKeep r y ys

/-- Rust `Vec::dedup_by(same_bucket)`: keeps the first of each run of
elements related to the last retained one. -/
def dedupBy (r : α → α → Bool) : List α → List α
  | [] => []
  | x :: xs => x :: dedupByKeep r x xs

theorem dedupByKeep_idem (r : α → α → Bool) :
    ∀ (l : List α) (p : α),
      dedupByKeep r p (dedupByKeep r p l) = dedupByKeep r p l := by
  intro l
  induction l with
  | nil => intro p; rfl
  | cons y ys ih =>
    intro p
    by_cases hr : r y p = true
    · simp only [dedupByKeep, if_pos hr]
      exact ih p
    · simp only [dedupByKeep, if_neg hr]
      rw [ih y]

/-- `dedup_by` is idempotent on every list. -/
theorem dedupBy_idem (r : α → α → Bool) (l : List α) :
    dedupBy r (dedupBy r l) = dedupBy r l := by
  cases l with
  | nil => rfl
  | cons x xs =>
    simp only [dedupBy]
    rw [dedupByKeep_idem]

/-- The `dedup_by` closure of `EZTV::search` (src/api/eztv.rs): under
equal seasons, drop the later of two adjacent items sharing episode and
quality. -/
def eztvDedupRel (a b : TorrentItem) : Bool :=
  if a.season.get! == b.season.get! then
    (b.episode.get! == a.episode.get!) && (a.quality == b.quality)
  else false

/-- The show-mode `dedup_by` closure of `TheRARBG::search`
(src/api/therarbg.rs): under equal seasons, drop the later of two
adjacent items sharing episode and quality whose seed count is strictly
below the retained one. -/
def rarbgShowDedupRel (a b : TorrentItem) : Bool :=
  if a.season.get! == b.season.get! then
    (b.episode.get! == a.episode.get!) && (a.quality == b.quality) &&
      decide (a.seeds.get! < b.seeds.get!)
  else false

/-- The movie-mode `dedup_by` closure of `TheRARBG::search`
(src/api/therarbg.rs): drop the later of two adjacent items sharing
quality whose seed count is strictly below the retained one. -/
def rarbgMovieDedupRel (a b : TorrentItem) : Bool :=
  (a.quality == b.quality) && decide (a.seeds.get! < b.seeds.get!)

/-- The `sort_by` comparator of `EZTV::search` (src/api/eztv.rs) as a
non-strict order: season ascending, then episode ascending, then
quality descending. -/
def eztvSortLe (a b : TorrentItem) : Bool :=
  if a.season.get! == b.season.get! then
    if a.episode.get! == b.episode.get! then
      decide (b.quality.toU8 ≤ a.quality.toU8)
    else decide (a.episode.get! ≤ b.episode.get!)
  else decide (a.season.get! ≤ b.season.get!)

/-- The show-mode `sort_by` comparator of `TheRARBG::search`
(src/api/therarbg.rs) as a non-strict order: season ascending, episode
ascending, quality descending, then seed count descending. -/
def rarbgShowSortLe (a b : TorrentItem) : Bool :=
  if a.season.get! == b.season.get! then
    if a.episode.get! == b.episode.get! then
      if b.quality == a.quality then
        decide (b.seeds.get! ≤ a.seeds.get!)
      else decide (b.quality.toU8 ≤ a.quality.toU8)
    else decide (a.episode.get! ≤ b.episode.get!)
  else decide (a.season.get! ≤ b.season.get!)

/-- The movie-mode `sort_by` comparator of `TheRARBG::search`
(src/api/therarbg.rs) as a non-strict order: quality descending, then
seed count descending. -/
def rarbgMovieSortLe (a b : TorrentItem) : Bool :=
  if b.quality == a.quality then decide (b.seeds.get! ≤ a.seeds.get!)
  else decide (b.quality.toU8 ≤ a.quality.toU8)

/-- C8: for every correctly-sorted candidate list, the adjacent
deduplication of each provider (EZTV shows; TheRARBG shows; TheRARBG
movies) is idempotent — a second application returns the
once-deduplicated list unchanged. -/
theorem c8_dedup_idempotent :
    (∀ l : List TorrentItem,
        l.Pairwise (fun a b => eztvSortLe a b = true) →
        dedupBy eztvDedupRel (dedupBy eztvDedupRel l) =
          dedupBy eztvDedupRel l) ∧
    (∀ l : List TorrentItem,
        l.Pairwise (fun a b => rarbgShowSortLe a b = true) →
        dedupBy rarbgShowDedupRel (dedupBy rarbgShowDedupRel l) =
          dedupBy rarbgShowDedupRel l) ∧
    (∀ l : List TorrentItem,
        l.Pairwise (fun a b => rarbgMovieSortLe a b = true) →
        dedupBy rarbgMovieDedupRel (dedupBy rarbgMovieDedupRel l) =
          dedupBy rarbgMovieDedupRel l) :=
  ⟨fun l _ => dedupBy_idem eztvDedupRel l,
   fun l _ => dedupBy_idem rarbgShowDedupRel l,
   fun l _ => dedupBy_idem rarbgMovieDedupRel l⟩

/-- A second concrete torrent item (same quality as `sampleItem1080`,
fewer seeds) used by witnesses. -/
def sampleItem1080LowSeeds : TorrentItem :=
  { sampleItem1080 with name := "Sample 1080p low seeds", seeds := some 5 }

/-- Witness for C8 at a concrete input: the movie dedup applied twice to
a sorted two-item list equals the single application. -/
theorem c8_dedup_idempotent_witness :
    dedupBy rarbgMovieDedupRel
        (dedupBy rarbgMovieDedupRel [sampleItem1080, sampleItem1080LowSeeds]) =
      dedupBy rarbgMovieDedupRel [sampleItem1080, sampleItem1080LowSeeds] :=
  c8_dedup_idempotent.2.2 [sampleItem1080, sampleItem1080LowSeeds] (by
    simp [List.pairwise_cons, sampleItem1080, sampleItem1080LowSeeds,
      rarbgMovieSortLe])

/-! ## C6 / C7: watchlist scheduler acquisition path
     (src/api/watchlist.rs) -/

/-- `TorrentQuery` from src/server/download.rs: the persisted download
record built per started candidate. -/
structure TorrentQuery where
  imdb_id : String
  season : Option Int
  episode : Option Int
  quality : MediaQuality
  magnet_uri : String
deriving DecidableEq, Repr

/-- The `TorrentQuery` that `find_downloads_and_start_imdb`
(src/api/watchlist.rs) builds from a candidate. -/
def torrentQueryOf (t : TorrentItem) : TorrentQuery :=
  { imdb_id := t.imdb_id
    season := t.season
    episode := t.episode
    quality := t.quality
    magnet_uri := t.magnet_uri }

/-- The observable effects of one acquisition run: the download records
inserted into the store and the downloads handed to the backend. -/
structure DownloadRunState where
  records : List TorrentQuery
  started : List TorrentItem
deriving DecidableEq, Repr

/-- The per-candidate loop of `find_downloads_and_start_imdb`
(src/api/watchlist.rs): insert a record, then start the download,
returning the first failure; `insertOk`/`startOk` abstract the fallible
store insert and backend add. -/
def startLoop (insertOk startOk : TorrentItem → Bool) (st : DownloadRunState) :
    List TorrentItem → Except String Unit × DownloadRunState
  | [] => (.ok (), st)
  | t :: ts =>
    if insertOk t then
      if startOk t then
        startLoop insertOk startOk
          { records := st.records ++ [torrentQueryOf t]
            started := st.started ++ [t] } ts
      else (.error "Failed to start download",
            { st with records := st.records ++ [torrentQueryOf t] })
    else (.error "Failed to insert torrent", st)

/-- `find_downloads_and_start_imdb` (src/api/watchlist.rs): take the
`find_torrent` outcome, keep only candidates whose quality equals
`MediaQuality::_1080p`, fail when none remain, else insert a record and
start a download per candidate. -/
def findDownloadsAndStartImdb (torrents : Except String (List TorrentItem))
    (insertOk startOk : TorrentItem → Bool) (st : DownloadRunState) :
    Except String Unit × DownloadRunState :=
  match torrents with
  | .error e => (.error e, st)
  | .ok ts =>
    if (ts.filter (fun x => x.quality == MediaQuality.q1080p)).isEmpty then
      (.error "No torrents available", st)
    else
      startLoop insertOk startOk st
        (ts.filter (fun x => x.quality == MediaQuality.q1080p))

/-- `check_movie_downloads_imdb` (src/api/watchlist.rs): run the
acquisition, then — only when it succeeded — remove the item from the
watchlist via `update_watchlist_item(id, false)` (`updateOk` abstracts
that store call's own success). -/
def checkMovieDownloadsImdb (torrents : Except String (List TorrentItem))
    (insertOk startOk : TorrentItem → Bool) (updateOk : Bool)
    (watchlist : List String) (id : String) (st : DownloadRunState) :
    Except String Unit × DownloadRunState × List String :=
  let result := findDownloadsAndStartImdb torrents insertOk startOk st
  match result.1 with
  | .error e => (.error e, result.2, watchlist)
  | .ok _ =>
    if updateOk then
      (.ok (), result.2, watchlist.filter (fun x => x ≠ id))
    else (.error "watchlist update failed", result.2, watchlist)

/-- `check_tv_downloads_imdb` (src/api/watchlist.rs): fail when no
episode is missing, otherwise run the acquisition; the watchlist is
never touched (TV shows may gain future seasons). -/
def checkTvDownloadsImdb (missingEpisodes : Option (List IMDBEpisode))
    (torrents : Except String (List TorrentItem))
    (insertOk startOk : TorrentItem → Bool) (watchlist : List String)
    (st : DownloadRunState) :
    Except String Unit × DownloadRunState × List String :=
  match missingEpisodes with
  | none => (.error "No missing episodes", st, watchlist)
  | some _ =>
    let result := findDownloadsAndStartImdb torrents insertOk startOk st
    (result.1, result.2, watchlist)

/-- The acquisition run succeeds exactly when the search succeeded, the
1080p filter kept something, and every insert and start succeeded. -/
theorem startLoop_ok_iff (insertOk startOk : TorrentItem → Bool) :
    ∀ (ts : List TorrentItem) (st : DownloadRunState),
      (startLoop insertOk startOk st ts).1 = .ok () ↔
        ∀ t ∈ ts, insertOk t = true ∧ startOk t = true := by
  intro ts
  induction ts with
  | nil => intro st; simp [startLoop]
  | cons t ts ih =>
    intro st
    by_cases hi : insertOk t = true
    · by_cases hs : startOk t = true
      · rw [startLoop, if_pos hi, if_pos hs, ih]
        simp [hi, hs]
      · rw [startLoop, if_pos hi, if_neg hs]
        simp [hs]
    · rw [startLoop, if_neg hi]
      simp [hi]

/-- When the loop succeeds it has inserted a record for, and started,
exactly the candidates it was given, in order. -/
theorem startLoop_ok_state (insertOk startOk : TorrentItem → Bool) :
    ∀ (ts : List TorrentItem) (st : DownloadRunState),
      (startLoop insertOk startOk st ts).1 = .ok () →
        (startLoop insertOk startOk st ts).2 =
          { records := st.records ++ ts.map torrentQueryOf
            started := st.started ++ ts } := by
  intro ts
  induction ts with
  | nil => intro st _; simp [startLoop]
  | cons t ts ih =>
    intro st hok
    have hts := (startLoop_ok_iff insertOk startOk (t :: ts) st).mp hok
    have hi : insertOk t = true := (hts t (by simp)).1
    have hs : startOk t = true := (hts t (by simp)).2
    rw [startLoop, if_pos hi, if_pos hs] at hok ⊢
    rw [ih _ hok]
    simp

/-- C6: a movie watchlist item is removed exactly when its acquisition
run succeeds — the search returned candidates surviving the 1080p
filter and every record insert and download start succeeded; a run with
zero post-filter candidates leaves the watchlist untouched and only
reports the error; and the TV-show path never changes the watchlist. -/
theorem c6_watchlist_retirement :
    (∀ (torrents : Except String (List TorrentItem))
        (insertOk startOk : TorrentItem → Bool) (st : DownloadRunState),
        (findDownloadsAndStartImdb torrents insertOk startOk st).1 = .ok () ↔
          ∃ ts, torrents = .ok ts ∧
            (ts.filter (fun x => x.quality == MediaQuality.q1080p)).isEmpty
              = false ∧
            ∀ t ∈ ts.filter (fun x => x.quality == MediaQuality.q1080p),
              insertOk t = true ∧ startOk t = true) ∧
    (∀ (torrents : Except String (List TorrentItem))
        (insertOk startOk : TorrentItem → Bool) (watchlist : List String)
        (id : String) (st : DownloadRunState),
        (findDownloadsAndStartImdb torrents insertOk startOk st).1 = .ok () →
          (checkMovieDownloadsImdb torrents insertOk startOk true watchlist id
              st).2.2 = watchlist.filter (fun x => x ≠ id) ∧
          (checkMovieDownloadsImdb torrents insertOk startOk true watchlist id
              st).1 = .ok ()) ∧
    (∀ (torrents : Except String (List TorrentItem))
        (insertOk startOk : TorrentItem → Bool) (watchlist : List String)
        (id : String) (st : DownloadRunState) (e : String),
        (findDownloadsAndStartImdb torrents insertOk startOk st).1 = .error e →
          (checkMovieDownloadsImdb torrents insertOk startOk true watchlist id
              st).2.2 = watchlist ∧
          (checkMovieDownloadsImdb torrents insertOk startOk true watchlist id
              st).1 = .error e) ∧
    (∀ (ts : List TorrentItem) (insertOk startOk : TorrentItem → Bool)
        (watchlist : List String) (id : String) (st : DownloadRunState),
        (ts.filter (fun x => x.quality == MediaQuality.q1080p)).isEmpty =
            true →
          checkMovieDownloadsImdb (.ok ts) insertOk startOk true watchlist id
              st = (.error "No torrents available", st, watchlist)) ∧
    (∀ (missing : Option (List IMDBEpisode))
        (torrents : Except String (List TorrentItem))
        (insertOk startOk : TorrentItem → Bool) (watchlist : List String)
        (st : DownloadRunState),
        (checkTvDownloadsImdb missing torrents insertOk startOk watchlist
            st).2.2 = watchlist) := by
  refine ⟨?_, ?_, ?_, ?_, ?_⟩
  · intro torrents insertOk startOk st
    cases torrents with
    | error e => simp [findDownloadsAndStartImdb]
    | ok ts =>
      simp only [findDownloadsAndStartImdb]
      by_cases hemp :
          (ts.filter (fun x => x.quality == MediaQuality.q1080p)).isEmpty = true
      · rw [if_pos hemp]
        constructor
        · intro h
          exact absurd h (by simp)
        · rintro ⟨ts2, hts2, hne, -⟩
          obtain rfl : ts = ts2 := Except.ok.inj hts2
          simp [hemp] at hne
      · rw [if_neg hemp]
        rw [startLoop_ok_iff]
        constructor
        · intro h
          exact ⟨ts, rfl, by simpa using hemp, h⟩
        · rintro ⟨ts2, hts2, -, h⟩
          obtain rfl : ts = ts2 := Except.ok.inj hts2
          exact h
  · intro torrents insertOk startOk watchlist id st h
    simp [checkMovieDownloadsImdb, h]
  · intro torrents insertOk startOk watchlist id st e h
    simp [checkMovieDownloadsImdb, h]
  · intro ts insertOk startOk watchlist id st hemp
    simp [checkMovieDownloadsImdb, findDownloadsAndStartImdb, hemp]
  · intro missing torrents insertOk startOk watchlist st
    cases missing with
    | none => rfl
    | some eps => rfl

/-- Witness for C6 at a concrete input: a movie search whose post-filter
candidate list is empty errors out and leaves the watchlist as it was. -/
theorem c6_watchlist_retirement_witness :
    checkMovieDownloadsImdb (.ok []) (fun _ => true) (fun _ => true) true
        ["tt0111161"] "tt0111161" { records := [], started := [] } =
      (.error "No torrents available", { records := [], started := [] },
        ["tt0111161"]) :=
  c6_watchlist_retirement.2.2.2.1 [] (fun _ => true) (fun _ => true)
    ["tt0111161"] "tt0111161" { records := [], started := [] } (by rfl)

/-- A concrete 1080p season-pack candidate (episode −1) used to refute
C7. -/
def seasonPack1080 : TorrentItem :=
  { imdb_id := "tt0944947"
    name := "Sample Season 1 1080p"
    magnet_uri := "magnet:?xt=urn:btih:ffffeeeeddddccccbbbb&dn=sample-season"
    quality := .q1080p
    itemType := .tvShow
    season := some 1
    episode := some (-1)
    seeds := some 7
    source := "TheRARBG" }

/-- Counterexample to C7: the watchlist acquisition path persists a
record for, and starts, a 1080p season-pack candidate whose episode is
−1, which the claim says is dropped at this stage. -/
theorem c7_counterexample :
    (findDownloadsAndStartImdb (.ok [seasonPack1080]) (fun _ => true)
        (fun _ => true) { records := [], started := [] }).1 = .ok () ∧
    (findDownloadsAndStartImdb (.ok [seasonPack1080]) (fun _ => true)
        (fun _ => true) { records := [], started := [] }).2.started =
      [seasonPack1080] ∧
    (findDownloadsAndStartImdb (.ok [seasonPack1080]) (fun _ => true)
        (fun _ => true) { records := [], started := [] }).2.records =
      [torrentQueryOf seasonPack1080] ∧
    seasonPack1080.episode = some (-1) :=
  ⟨rfl, rfl, rfl, rfl⟩

/-- C7 as amended: on a successful run the candidates that get a
persisted record and a started download are exactly those whose quality
equals the hardcoded `MediaQuality::_1080p` target — the episode value
is not consulted, so season-pack sentinels (episode = −1) are persisted
and started too. -/
theorem c7_started_are_1080p (ts : List TorrentItem)
    (insertOk startOk : TorrentItem → Bool) (st : DownloadRunState)
    (hok : (findDownloadsAndStartImdb (.ok ts) insertOk startOk st).1 =
      .ok ()) :
    (findDownloadsAndStartImdb (.ok ts) insertOk startOk st).2 =
      { records := st.records ++
          ((ts.filter (fun x => x.quality == MediaQuality.q1080p)).map
            torrentQueryOf)
        started := st.started ++
          ts.filter (fun x => x.quality == MediaQuality.q1080p) } := by
  simp only [findDownloadsAndStartImdb] at hok ⊢
  by_cases hemp :
      (ts.filter (fun x => x.quality == MediaQuality.q1080p)).isEmpty = true
  · rw [if_pos hemp] at hok
    simp at hok
  · rw [if_neg hemp] at hok ⊢
    exact startLoop_ok_state insertOk startOk _ st hok

/-- Witness for the amended C7 at a concrete input: with one 1080p
season-pack candidate and an always-succeeding store and backend, the
run records and starts exactly that candidate. -/
theorem c7_started_are_1080p_witness :
    (findDownloadsAndStartImdb (.ok [seasonPack1080]) (fun _ => true)
        (fun _ => true) { records := [], started := [] }).2 =
      { records := [] ++
          (([seasonPack1080].filter
              (fun x => x.quality == MediaQuality.q1080p)).map torrentQueryOf)
        started := [] ++
          [seasonPack1080].filter
            (fun x => x.quality == MediaQuality.q1080p) } :=
  c7_started_are_1080p [seasonPack1080] (fun _ => true) (fun _ => true)
    { records := [], started := [] } (by rfl)

/-! ## C3: episode matching for shows
     (src/api/therarbg.rs and src/api/eztv.rs `search`) -/

/-- The show-mode retain predicate of `TheRARBG::search`
(src/api/therarbg.rs): `episodes` is
`tv_episodes.iter().map(|ep| (ep.season, ep.episode))`; a candidate is
kept when its season and episode are present and the desired pair list
contains either `(season, episode)` or `(season, -1)`. -/
def rarbgEpisodeKeep (episodes : List (Int × Int)) (x : TorrentItem) : Bool :=
  x.season.isSome && x.episode.isSome &&
    (episodes.contains (x.season.get!, x.episode.get!) ||
      episodes.contains (x.season.get!, -1))

/-- The `retain` call of `TheRARBG::search` applied to the fetched
torrent list. -/
def rarbgEpisodeFilter (tvEpisodes : List IMDBEpisode)
    (torrents : List TorrentItem) : List TorrentItem :=
  torrents.filter
    (rarbgEpisodeKeep (tvEpisodes.map (fun ep => (ep.season, ep.episode))))

/-- Raw `EZTVTorrent` rows from src/api/eztv.rs, with the `season` and
`episode` strings already parsed to the integers the filter unwraps. -/
structure EZTVTorrent where
  filename : String
  magnet_url : String
  title : String
  season : Int
  episode : Int
  seeds : Int
deriving DecidableEq, Repr

/-- Substring test standing for Rust `str::contains`. -/
def strContains (hay pat : String) : Bool :=
  hay.toList.tails.any (fun t => pat.toList.isPrefixOf t)

/-- The episode filter of `EZTV::search` (src/api/eztv.rs): a raw row is
kept when some desired entry matches its parsed `(season, episode)`
exactly and the filename is not a multilingual release; the season-pack
sentinel (−1) is only assigned later, in the mapping step after this
filter. -/
def eztvKeep (episodes : List IMDBEpisode) (t : EZTVTorrent) : Bool :=
  episodes.any (fun e =>
      decide (e.season = t.season) && decide (e.episode = t.episode)) &&
    !(strContains t.filename ".multi")

/-- The filtering step of `EZTV::search` over the fetched rows. -/
def eztvEpisodeFilter (episodes : List IMDBEpisode)
    (torrents : List EZTVTorrent) : List EZTVTorrent :=
  torrents.filter (eztvKeep episodes)

/-- The episode-matching policy exactly as C3 states it (modelled from
the spec's words, to be compared against the code's predicates): keep
when the pair matches exactly, or when the candidate's episode is the
sentinel −1 and its season equals the season of any desired entry. -/
def claimEpisodeMatch (desired : List (Int × Int))
    (season episode : Int) : Bool :=
  desired.contains (season, episode) ||
    (decide (episode = -1) && desired.any (fun p => decide (p.1 = season)))

/-- Counterexample to C3: with desired set `{(1, 2)}`, a season-pack
candidate with season 1 and episode −1 is kept under the claim's policy
but discarded by `TheRARBG::search`, whose sentinel test looks for
`(season, -1)` in the desired set instead of consulting the candidate's
sentinel. -/
theorem c3_counterexample :
    claimEpisodeMatch [(1, 2)] 1 (-1) = true ∧
    rarbgEpisodeKeep [(1, 2)] seasonPack1080 = false ∧
    rarbgEpisodeFilter [{ id := "e1", season := 1, episode := 2 }]
        [seasonPack1080] = [] ∧
    seasonPack1080.season = some 1 ∧ seasonPack1080.episode = some (-1) := by
  refine ⟨rfl, rfl, ?_, rfl, rfl⟩
  rfl

/-- C3 as amended: `TheRARBG::search` keeps a candidate exactly when its
season and episode are present and the desired set contains either the
exact `(season, episode)` pair or the entry `(season, -1)` — the
candidate's own −1 sentinel never wildcard-matches; `EZTV::search`
keeps a raw row exactly when some desired entry equals its parsed
`(season, episode)` exactly (and it is not a multilingual release),
the sentinel being assigned only after this filter. -/
theorem c3_episode_matching_amended :
    (∀ (eps : List IMDBEpisode) (ts : List TorrentItem) (x : TorrentItem),
        x ∈ rarbgEpisodeFilter eps ts ↔
          x ∈ ts ∧ ∃ s e, x.season = some s ∧ x.episode = some e ∧
            ((s, e) ∈ eps.map (fun ep => (ep.season, ep.episode)) ∨
              (s, -1) ∈ eps.map (fun ep => (ep.season, ep.episode)))) ∧
    (∀ (eps : List IMDBEpisode) (ts : List EZTVTorrent) (t : EZTVTorrent),
        t ∈ eztvEpisodeFilter eps ts ↔
          t ∈ ts ∧ (∃ e ∈ eps, e.season = t.season ∧ e.episode = t.episode) ∧
            strContains t.filename ".multi" = false) := by
  constructor
  · intro eps ts x
    rw [rarbgEpisodeFilter, List.mem_filter]
    refine and_congr_right (fun _ => ?_)
    cases hs : x.season with
    | none => simp [rarbgEpisodeKeep, hs]
    | some s =>
      cases he : x.episode with
      | none => simp [rarbgEpisodeKeep, hs, he]
      | some e =>
        simp only [rarbgEpisodeKeep, hs, he, Option.isSome_some,
          Bool.true_and, Bool.or_eq_true, List.contains_eq_any_beq,
          List.any_eq_true, beq_iff_eq, Option.get!]
        constructor
        · rintro (⟨p, hp, hpe⟩ | ⟨p, hp, hpe⟩)
          · exact ⟨s, e, rfl, rfl, Or.inl (hpe ▸ hp)⟩
          · exact ⟨s, e, rfl, rfl, Or.inr (hpe ▸ hp)⟩
        · rintro ⟨s2, e2, hs2, he2, hmem | hmem⟩
          · obtain rfl : s = s2 := Option.some.inj hs2
            obtain rfl : e = e2 := Option.some.inj he2
            exact Or.inl ⟨(s, e), hmem, rfl⟩
          · obtain rfl : s = s2 := Option.some.inj hs2
            obtain rfl : e = e2 := Option.some.inj he2
            exact Or.inr ⟨(s, -1), hmem, rfl⟩
  · intro eps ts t
    rw [eztvEpisodeFilter, List.mem_filter]
    refine and_congr_right (fun _ => ?_)
    simp [eztvKeep, List.any_eq_true]

/-! ## C1: DownloadDatabase::is_downloading
     (src/db/downloads.rs) -/

/-- A row of the `active_downloads` table, restricted to the columns
`is_downloading` consults. -/
structure DownloadRow where
  imdb_id : String
  season : Option Int
  episode : Option Int
deriving DecidableEq, Repr

/-- The `sort_by` comparator of `is_downloading` (src/db/downloads.rs)
as a non-strict order: season descending, then episode descending. -/
def isDownloadingSortLe (a b : IMDBEpisode) : Bool :=
  if a.season == b.season then decide (b.episode ≤ a.episode)
  else decide (b.season ≤ a.season)

/-- The sorted copy of the desired episode list built by
`is_downloading`. -/
def sortEpisodesDesc (eps : List IMDBEpisode) : List IMDBEpisode :=
  eps.mergeSort isDownloadingSortLe

/-- Rust `slice::chunk_by(p)`: maximal runs of consecutive elements
whose adjacent pairs satisfy `p`. -/
def chunkBy (p : α → α → Bool) : List α → List (List α)
  | [] => []
  | [x] => [[x]]
  | x :: y :: xs =>
    match chunkBy p (y :: xs) with
    | [] => [[x]]
    | c :: cs => if p x y then (x :: c) :: cs else [x] :: c :: cs

/-- The adjacency predicate of the `chunk_by` call in
`is_downloading`: equal seasons. -/
def sameSeason (a b : IMDBEpisode) : Bool := a.season == b.season

/-- The per-season store query of `is_downloading`
(src/db/downloads.rs): `SELECT season, episode FROM active_downloads
WHERE imdb_id = $id AND season = $first.season AND episode IN
($chunk episodes)` over the store rows. -/
def seasonQuery (store : List DownloadRow) (id : String)
    (chunk : List IMDBEpisode) : List (Int × Int) :=
  match chunk with
  | [] => []
  | first :: _ =>
    store.filterMap (fun r =>
      match r.season, r.episode with
      | some s, some e =>
        if r.imdb_id == id && s == first.season &&
            (chunk.map (fun ep => ep.episode)).contains e then some (s, e)
        else none
      | _, _ => none)

/-- The `downloading_episodes` accumulation of `is_downloading`: the
concatenated results of the per-season-chunk queries. -/
def downloadingEpisodes (store : List DownloadRow) (id : String)
    (eps : List IMDBEpisode) : List (Int × Int) :=
  (chunkBy sameSeason (sortEpisodesDesc eps)).flatMap (seasonQuery store id)

/-- The `filtered` list of `is_downloading`: desired episodes with no
matching in-flight pair. -/
def isDownloadingFiltered (store : List DownloadRow) (id : String)
    (eps : List IMDBEpisode) : List IMDBEpisode :=
  (sortEpisodesDesc eps).filter (fun e =>
    !((downloadingEpisodes store id eps).contains (e.season, e.episode)))

/-- `DownloadDatabase::is_downloading` (src/db/downloads.rs) over an
explicit store: a movie query (no episode list) checks for any record
under the id; a show query sorts the desired episodes, chunks them by
season, queries each season's in-flight pairs, filters the desired list
down to the not-in-flight remainder and classifies the result. -/
def isDownloading (store : List DownloadRow) (id : String) :
    Option (List IMDBEpisode) → Bool × Option (List IMDBEpisode)
  | none => (store.any (fun r => r.imdb_id == id), none)
  | some episodes =>
    if (isDownloadingFiltered store id episodes).isEmpty then (true, none)
    else if (sortEpisodesDesc episodes).length =
        (isDownloadingFiltered store id episodes).length then
      (false, some (isDownloadingFiltered store id episodes))
    else (true, some (isDownloadingFiltered store id episodes))

/-- An in-flight record for (id, season, episode) exists in the store. -/
def storeHas (store : List DownloadRow) (id : String) (s e : Int) : Bool :=
  store.any (fun r =>
    r.imdb_id == id && r.season == some s && r.episode == some e)

/-- The claim's per-season set difference: desired minus in-flight, in
the code's sorted order. -/
def reconcilerDifference (store : List DownloadRow) (id : String)
    (eps : List IMDBEpisode) : List IMDBEpisode :=
  (sortEpisodesDesc eps).filter (fun e => !(storeHas store id e.season e.episode))

theorem chunkBy_flatten (p : α → α → Bool) :
    ∀ l : List α, (chunkBy p l).flatten = l
  | [] => rfl
  | [x] => rfl
  | x :: y :: xs => by
    have ih := chunkBy_flatten p (y :: xs)
    cases hres : chunkBy p (y :: xs) with
    | nil =>
      rw [hres] at ih
      simp at ih
    | cons c0 cs =>
      rw [hres] at ih
      simp only [chunkBy, hres]
      by_cases hp : p x y = true
      · rw [if_pos hp]
        simp only [List.flatten_cons] at ih ⊢
        simp [ih]
      · rw [if_neg hp]
        simp only [List.flatten_cons] at ih ⊢
        simp [ih]

theorem chunkBy_ne_nil (p : α → α → Bool) :
    ∀ (l : List α) (c : List α), c ∈ chunkBy p l → c ≠ []
  | [], c => by simp [chunkBy]
  | [x], c => by
    intro hc
    simp [chunkBy] at hc
    subst hc
    simp
  | x :: y :: xs, c => by
    intro hc
    have ih := chunkBy_ne_nil p (y :: xs)
    cases hres : chunkBy p (y :: xs) with
    | nil =>
      rw [chunkBy.eq_def] at hc
      simp only [hres] at hc
      simp at hc
      subst hc
      simp
    | cons c0 cs =>
      rw [chunkBy.eq_def] at hc
      simp only [hres] at hc
      by_cases hp : p x y = true
      · rw [if_pos hp] at hc
        rcases List.mem_cons.mp hc with rfl | hmem
        · simp
        · exact ih c (by rw [hres]; exact List.mem_cons_of_mem _ hmem)
      · rw [if_neg hp] at hc
        rcases List.mem_cons.mp hc with rfl | hmem
        · simp
        · exact ih c (by rw [hres]; exact hmem)

/-- The first chunk of a non-empty list starts with the list's head. -/
theorem chunkBy_head (p : α → α → Bool) (x : α) (xs : List α) :
    ∀ c cs, chunkBy p (x :: xs) = c :: cs → ∃ t, c = x :: t := by
  cases xs with
  | nil =>
    intro c cs h
    simp only [chunkBy] at h
    exact ⟨[], ((List.cons.inj h).1).symm⟩
  | cons y ys =>
    intro c cs h
    rw [chunkBy.eq_def] at h
    cases hres : chunkBy p (y :: ys) with
    | nil =>
      simp only [hres] at h
      exact ⟨[], ((List.cons.inj h).1).symm⟩
    | cons c0 cs0 =>
      simp only [hres] at h
      by_cases hp : p x y = true
      · rw [if_pos hp] at h
        exact ⟨c0, ((List.cons.inj h).1).symm⟩
      · rw [if_neg hp] at h
        exact ⟨[], ((List.cons.inj h).1).symm⟩

/-- Any two members of a season chunk share the same season. -/
theorem chunkBy_season_uniform :
    ∀ (l : List IMDBEpisode) (c : List IMDBEpisode),
      c ∈ chunkBy sameSeason l → ∀ a ∈ c, ∀ b ∈ c, a.season = b.season
  | [], c => by simp [chunkBy]
  | [x], c => by
    intro hc a ha b hb
    simp [chunkBy] at hc
    subst hc
    simp at ha hb
    rw [ha, hb]
  | x :: y :: xs, c => by
    intro hc a ha b hb
    have ih := chunkBy_season_uniform (y :: xs)
    cases hres : chunkBy sameSeason (y :: xs) with
    | nil =>
      rw [chunkBy.eq_def] at hc
      simp only [hres] at hc
      simp at hc
      subst hc
      simp at ha hb
      rw [ha, hb]
    | cons c0 cs =>
      rw [chunkBy.eq_def] at hc
      simp only [hres] at hc
      obtain ⟨t0, ht0⟩ : ∃ t0, c0 = y :: t0 :=
        chunkBy_head sameSeason y xs c0 cs hres
      by_cases hp : sameSeason x y = true
      · rw [if_pos hp] at hc
        rcases List.mem_cons.mp hc with hcx | hmem
        · subst hcx
          have hc0mem : c0 ∈ chunkBy sameSeason (y :: xs) := by
            rw [hres]
            exact List.mem_cons_self _ _
          have hymem : y ∈ c0 := by
            rw [ht0]
            exact List.mem_cons_self _ _
          have hxy : x.season = y.season := by
            simpa [sameSeason] using hp
          have hall : ∀ z ∈ x :: c0, z.season = x.season := by
            intro z hz
            rcases List.mem_cons.mp hz with hzx | hz0
            · rw [hzx]
            · exact (ih c0 hc0mem z hz0 y hymem).trans hxy.symm
          rw [hall a ha, hall b hb]
        · exact ih c (by rw [hres]; exact List.mem_cons_of_mem _ hmem) a ha b hb
      · rw [if_neg hp] at hc
        rcases List.mem_cons.mp hc with hcx | hmem
        · subst hcx
          simp at ha hb
          rw [ha, hb]
        · exact ih c (by rw [hres]; exact hmem) a ha b hb

/-- Soundness of the chunked queries: every returned pair is a real
in-flight record of the id. -/
theorem downloadingEpisodes_sound (store : List DownloadRow) (id : String)
    (eps : List IMDBEpisode) (pr : Int × Int)
    (hpr : pr ∈ downloadingEpisodes store id eps) :
    storeHas store id pr.1 pr.2 = true := by
  obtain ⟨c, _, hprc⟩ := List.mem_flatMap.mp hpr
  cases c with
  | nil => simp [seasonQuery] at hprc
  | cons first t =>
    obtain ⟨r, hr, hsome⟩ := List.mem_filterMap.mp hprc
    cases hs : r.season with
    | none => rw [hs] at hsome; simp at hsome
    | some s =>
      cases he : r.episode with
      | none => rw [hs, he] at hsome; simp at hsome
      | some e =>
        rw [hs, he] at hsome
        replace hsome :
            (if (r.imdb_id == id && s == first.season &&
                (List.map (fun ep => ep.episode) (first :: t)).contains e) =
                  true then
               some (s, e)
             else none) = some pr := hsome
        by_cases hcond : (r.imdb_id == id && s == first.season &&
            ((first :: t).map (fun ep => ep.episode)).contains e) = true
        · rw [if_pos hcond] at hsome
          obtain rfl : (s, e) = pr := Option.some.inj hsome
          simp only [Bool.and_eq_true, beq_iff_eq] at hcond
          rw [storeHas, List.any_eq_true]
          exact ⟨r, hr, by simp [hcond.1.1, hs, he]⟩
        · rw [if_neg hcond] at hsome
          simp at hsome

/-- Completeness of the chunked queries: a desired episode with an
in-flight record shows up among the returned pairs. -/
theorem downloadingEpisodes_complete (store : List DownloadRow) (id : String)
    (eps : List IMDBEpisode) (e : IMDBEpisode)
    (he : e ∈ sortEpisodesDesc eps)
    (hhas : storeHas store id e.season e.episode = true) :
    (e.season, e.episode) ∈ downloadingEpisodes store id eps := by
  have hflat : e ∈ (chunkBy sameSeason (sortEpisodesDesc eps)).flatten := by
    rw [chunkBy_flatten]
    exact he
  obtain ⟨c, hc, hec⟩ := List.mem_flatten.mp hflat
  obtain ⟨first, t, rfl⟩ : ∃ first t, c = first :: t := by
    cases c with
    | nil => exact absurd rfl (chunkBy_ne_nil sameSeason _ _ hc)
    | cons first t => exact ⟨first, t, rfl⟩
  have hseason : e.season = first.season :=
    chunkBy_season_uniform _ _ hc e hec first (List.mem_cons_self _ _)
  obtain ⟨r, hr, hrcond⟩ := List.any_eq_true.mp hhas
  simp only [Bool.and_eq_true, beq_iff_eq] at hrcond
  obtain ⟨⟨hid, hs⟩, hep⟩ := hrcond
  refine List.mem_flatMap.mpr ⟨first :: t, hc, ?_⟩
  rw [seasonQuery]
  refine List.mem_filterMap.mpr ⟨r, hr, ?_⟩
  have hcond : (r.imdb_id == id && e.season == first.season &&
      ((first :: t).map (fun ep => ep.episode)).contains e.episode) = true := by
    simp only [Bool.and_eq_true, beq_iff_eq, List.contains_eq_any_beq,
      List.any_eq_true]
    exact ⟨⟨hid, hseason⟩, ⟨e.episode, List.mem_map.mpr ⟨e, hec, rfl⟩, rfl⟩⟩
  simp only [hs, hep]
  simp [hcond]
  refine ⟨hid, hseason, fun hne => ?_⟩
  rcases List.mem_cons.mp hec with hef | het
  · exact absurd (by rw [hef]) hne
  · exact ⟨e, het, rfl⟩

theorem contains_pair_iff_mem (l : List (Int × Int)) (pr : Int × Int) :
    l.contains pr = true ↔ pr ∈ l := by
  simp [List.contains_eq_any_beq, List.any_eq_true, eq_comm]

/-- C1: for a show query the reconciler returns `(true, None)` when the
per-season difference R (desired minus in-flight) is empty,
`(false, Some R)` when R is as large as the desired set, and
`(true, Some R)` otherwise; for a movie query (no desired set) it
returns `(true, None)` exactly when some in-flight record exists for
the id, and `(false, None)` otherwise. -/
theorem c1_reconciler_policy :
    (∀ (store : List DownloadRow) (id : String) (eps : List IMDBEpisode),
        isDownloading store id (some eps) =
          (if (reconcilerDifference store id eps).isEmpty then (true, none)
           else if eps.length = (reconcilerDifference store id eps).length then
             (false, some (reconcilerDifference store id eps))
           else (true, some (reconcilerDifference store id eps)))) ∧
    (∀ (store : List DownloadRow) (id : String),
        (isDownloading store id none = (true, none) ↔
          ∃ r ∈ store, r.imdb_id = id) ∧
        (isDownloading store id none = (false, none) ↔
          ¬∃ r ∈ store, r.imdb_id = id)) := by
  constructor
  · intro store id eps
    have hfe : isDownloadingFiltered store id eps =
        reconcilerDifference store id eps := by
      rw [isDownloadingFiltered, reconcilerDifference]
      apply List.filter_congr
      intro e he
      have hab : (downloadingEpisodes store id eps).contains
          (e.season, e.episode) = storeHas store id e.season e.episode := by
        cases ha : (downloadingEpisodes store id eps).contains
            (e.season, e.episode) with
        | true =>
          have hmem := (contains_pair_iff_mem _ _).mp ha
          exact (downloadingEpisodes_sound store id eps _ hmem).symm
        | false =>
          cases hb : storeHas store id e.season e.episode with
          | false => rfl
          | true =>
            have hmem := downloadingEpisodes_complete store id eps e he hb
            rw [← contains_pair_iff_mem, ha] at hmem
            exact absurd hmem (by simp)
      rw [hab]
    have hlen : (sortEpisodesDesc eps).length = eps.length := by
      rw [sortEpisodesDesc]
      exact List.length_mergeSort eps
    simp only [isDownloading, hfe, hlen]
  · intro store id
    have hnone : isDownloading store id none =
        (store.any (fun r => r.imdb_id == id), none) := rfl
    constructor
    · rw [hnone]
      simp [Prod.ext_iff, List.any_eq_true]
    · rw [hnone]
      simp [Prod.ext_iff, List.any_eq_false]

/-! ## C4: output ordering of find_torrent
     (src/api/torrent.rs, src/api/eztv.rs, src/api/therarbg.rs,
      src/api/yts.rs) -/

/-- `MediaQuality.toU8` is injective. -/
theorem MediaQuality.toU8_inj :
    ∀ q1 q2 : MediaQuality, q1.toU8 = q2.toU8 → q1 = q2 := by decide

/-- The EZTV comparator as a lexicographic proposition. -/
def eztvLeProp (a b : TorrentItem) : Prop :=
  a.season.get! < b.season.get! ∨ (a.season.get! = b.season.get! ∧
    (a.episode.get! < b.episode.get! ∨ (a.episode.get! = b.episode.get! ∧
      b.quality.toU8 ≤ a.quality.toU8)))

theorem eztvSortLe_iff (a b : TorrentItem) :
    eztvSortLe a b = true ↔ eztvLeProp a b := by
  rw [eztvSortLe, eztvLeProp]
  by_cases hs : a.season.get! = b.season.get!
  · by_cases he : a.episode.get! = b.episode.get!
    · simp [hs, he]
    · simp [hs, he]
      omega
  · simp [hs]
    omega

theorem eztvSortLe_trans (a b c : TorrentItem) (hab : eztvSortLe a b = true)
    (hbc : eztvSortLe b c = true) : eztvSortLe a c = true := by
  rw [eztvSortLe_iff] at hab hbc ⊢
  rw [eztvLeProp] at hab hbc ⊢
  omega

theorem eztvSortLe_total (a b : TorrentItem) :
    (eztvSortLe a b || eztvSortLe b a) = true := by
  rw [Bool.or_eq_true, eztvSortLe_iff, eztvSortLe_iff]
  rw [eztvLeProp, eztvLeProp]
  omega

/-- The show-mode TheRARBG comparator as a lexicographic proposition. -/
def rarbgShowLeProp (a b : TorrentItem) : Prop :=
  a.season.get! < b.season.get! ∨ (a.season.get! = b.season.get! ∧
    (a.episode.get! < b.episode.get! ∨ (a.episode.get! = b.episode.get! ∧
      (b.quality.toU8 < a.quality.toU8 ∨ (b.quality.toU8 = a.quality.toU8 ∧
        b.seeds.get! ≤ a.seeds.get!)))))

theorem rarbgShowSortLe_iff (a b : TorrentItem) :
    rarbgShowSortLe a b = true ↔ rarbgShowLeProp a b := by
  rw [rarbgShowSortLe, rarbgShowLeProp]
  by_cases hs : a.season.get! = b.season.get!
  · by_cases he : a.episode.get! = b.episode.get!
    · by_cases hq : b.quality = a.quality
      · simp [hs, he, hq]
      · have hqu : ¬b.quality.toU8 = a.quality.toU8 :=
          fun h => hq (MediaQuality.toU8_inj _ _ h)
        simp [hs, he, hq, hqu]
        omega
    · simp [hs, he]
      omega
  · simp [hs]
    omega

theorem rarbgShowSortLe_trans (a b c : TorrentItem)
    (hab : rarbgShowSortLe a b = true) (hbc : rarbgShowSortLe b c = true) :
    rarbgShowSortLe a c = true := by
  rw [rarbgShowSortLe_iff] at hab hbc ⊢
  rw [rarbgShowLeProp] at hab hbc ⊢
  omega

theorem rarbgShowSortLe_total (a b : TorrentItem) :
    (rarbgShowSortLe a b || rarbgShowSortLe b a) = true := by
  rw [Bool.or_eq_true, rarbgShowSortLe_iff, rarbgShowSortLe_iff]
  rw [rarbgShowLeProp, rarbgShowLeProp]
  omega

/-- The movie-mode TheRARBG comparator as a lexicographic proposition. -/
def rarbgMovieLeProp (a b : TorrentItem) : Prop :=
  b.quality.toU8 < a.quality.toU8 ∨ (b.quality.toU8 = a.quality.toU8 ∧
    b.seeds.get! ≤ a.seeds.get!)

theorem rarbgMovieSortLe_iff (a b : TorrentItem) :
    rarbgMovieSortLe a b = true ↔ rarbgMovieLeProp a b := by
  rw [rarbgMovieSortLe, rarbgMovieLeProp]
  by_cases hq : b.quality = a.quality
  · simp [hq]
  · have hqu : ¬b.quality.toU8 = a.quality.toU8 :=
      fun h => hq (MediaQuality.toU8_inj _ _ h)
    simp [hq, hqu]
    omega

theorem rarbgMovieSortLe_trans (a b c : TorrentItem)
    (hab : rarbgMovieSortLe a b = true) (hbc : rarbgMovieSortLe b c = true) :
    rarbgMovieSortLe a c = true := by
  rw [rarbgMovieSortLe_iff] at hab hbc ⊢
  rw [rarbgMovieLeProp] at hab hbc ⊢
  omega

theorem rarbgMovieSortLe_total (a b : TorrentItem) :
    (rarbgMovieSortLe a b || rarbgMovieSortLe b a) = true := by
  rw [Bool.or_eq_true, rarbgMovieSortLe_iff, rarbgMovieSortLe_iff]
  rw [rarbgMovieLeProp, rarbgMovieLeProp]
  omega

theorem dedupByKeep_sublist (r : α → α → Bool) :
    ∀ (l : List α) (p : α), List.Sublist (dedupByKeep r p l) l := by
  intro l
  induction l with
  | nil => intro p; simp [dedupByKeep]
  | cons y ys ih =>
    intro p
    simp only [dedupByKeep]
    by_cases hr : r y p = true
    · rw [if_pos hr]
      exact List.Sublist.cons y (ih p)
    · rw [if_neg hr]
      exact List.Sublist.cons₂ y (ih y)

/-- `dedup_by` returns a sublist of its input. -/
theorem dedupBy_sublist (r : α → α → Bool) (l : List α) :
    List.Sublist (dedupBy r l) l := by
  cases l with
  | nil => simp [dedupBy]
  | cons x xs => exact List.Sublist.cons₂ x (dedupByKeep_sublist r xs x)

/-- The sort-and-dedup tail of `TheRARBG::search` in show mode
(src/api/therarbg.rs): episode filter, sort, adjacent dedup. -/
def rarbgShowPostProcess (eps : List IMDBEpisode)
    (torrents : List TorrentItem) : List TorrentItem :=
  dedupBy rarbgShowDedupRel
    ((rarbgEpisodeFilter eps torrents).mergeSort rarbgShowSortLe)

/-- The sort-and-dedup tail of `TheRARBG::search` in movie mode. -/
def rarbgMoviePostProcess (torrents : List TorrentItem) : List TorrentItem :=
  dedupBy rarbgMovieDedupRel (torrents.mergeSort rarbgMovieSortLe)

/-- The sort-and-dedup tail of `EZTV::search` (src/api/eztv.rs), over
the already-mapped candidate items. -/
def eztvPostProcess (torrents : List TorrentItem) : List TorrentItem :=
  dedupBy eztvDedupRel (torrents.mergeSort eztvSortLe)

/-- A 720p S01E01 candidate as EZTV would return it. -/
def eztvItem720 : TorrentItem :=
  { imdb_id := "tt0944947"
    name := "Show S01E01 720p"
    magnet_uri := "magnet:?xt=urn:btih:0000111122223333aaaa&dn=a"
    quality := .q720p
    itemType := .tvShow
    season := some 1
    episode := some 1
    seeds := some 30
    source := "EZTV" }

/-- A 2160p S01E01 candidate as TheRARBG would return it. -/
def rarbgItem2160 : TorrentItem :=
  { imdb_id := "tt0944947"
    name := "Show S01E01 2160p"
    magnet_uri := "magnet:?xt=urn:btih:4444555566667777bbbb&dn=b"
    quality := .q2160p
    itemType := .tvShow
    season := some 1
    episode := some 1
    seeds := some 50
    source := "TheRARBG" }

/-- Counterexample to C4: in concurrent mode `find_torrent` returns the
concatenation of the providers' filtered lists without re-sorting, so
with one provider erroring, EZTV returning a 720p copy of S01E01 and
TheRARBG a 2160p copy, the merged output places the lower quality first
at an identical (season, episode) — violating the claimed descending
quality order. -/
theorem c4_counterexample :
    findTorrentConcurrent .q720p
        [.error "Not a movie", .ok [eztvItem720], .ok [rarbgItem2160]] =
      .ok [eztvItem720, rarbgItem2160] ∧
    eztvItem720.season = rarbgItem2160.season ∧
    eztvItem720.episode = rarbgItem2160.episode ∧
    MediaQuality.lt eztvItem720.quality rarbgItem2160.quality = true ∧
    rarbgShowSortLe eztvItem720 rarbgItem2160 = false := by
  refine ⟨?_, rfl, rfl, rfl, rfl⟩
  rfl

/-- C4 as amended: `find_torrent` never re-sorts — the concurrent
output is exactly the concatenation of the providers' quality-filtered
lists in the fixed provider order (so the ordering is a deterministic
function of the provider outputs), and the sequential output is one
provider's filtered list; within one provider, TheRARBG (shows and
movies) and EZTV return lists sorted by their own comparators — season
ascending, episode ascending, quality descending, then for TheRARBG
seed count descending — while the merged union and YTS output carry no
global sort. -/
theorem c4_ordering_amended :
    (∀ (minQuality : MediaQuality) (results : List ProviderResult)
        (out : List TorrentItem),
        findTorrentConcurrent minQuality results = .ok out →
          out = concurrentMerged minQuality results) ∧
    (∀ (minQuality : MediaQuality) (results : List ProviderResult)
        (out : List TorrentItem),
        findTorrentSequential minQuality results = .ok out →
          ∃ r, Except.ok r ∈ results ∧ out = qualityFloorFilter minQuality r) ∧
    (∀ (eps : List IMDBEpisode) (ts : List TorrentItem),
        (rarbgShowPostProcess eps ts).Pairwise
          (fun a b => rarbgShowSortLe a b = true)) ∧
    (∀ ts : List TorrentItem,
        (rarbgMoviePostProcess ts).Pairwise
          (fun a b => rarbgMovieSortLe a b = true)) ∧
    (∀ ts : List TorrentItem,
        (eztvPostProcess ts).Pairwise (fun a b => eztvSortLe a b = true)) := by
  refine ⟨?_, ?_, ?_, ?_, ?_⟩
  · intro minQuality results out h
    rw [findTorrentConcurrent] at h
    split at h
    · exact (Except.ok.inj h).symm
    · exact absurd h (by simp)
  · intro minQuality results out h
    induction results with
    | nil => exact absurd h (by simp [findTorrentSequential])
    | cons task rest ih =>
      cases task with
      | error e =>
        rw [findTorrentSequential] at h
        obtain ⟨r, hr, ho⟩ := ih h
        exact ⟨r, List.mem_cons_of_mem _ hr, ho⟩
      | ok rlist =>
        rw [findTorrentSequential] at h
        by_cases hemp : rlist.isEmpty = true
        · rw [if_pos hemp] at h
          obtain ⟨r, hr, ho⟩ := ih h
          exact ⟨r, List.mem_cons_of_mem _ hr, ho⟩
        · rw [if_neg hemp] at h
          by_cases hf : (qualityFloorFilter minQuality rlist).isEmpty = true
          · rw [if_neg (by simp [hf])] at h
            obtain ⟨r, hr, ho⟩ := ih h
            exact ⟨r, List.mem_cons_of_mem _ hr, ho⟩
          · have hx : (qualityFloorFilter minQuality rlist).isEmpty = false := by
              simpa using hf
            rw [if_pos (by simp [hx])] at h
            exact ⟨rlist, List.mem_cons_self _ _, (Except.ok.inj h).symm⟩
  · intro eps ts
    exact List.Pairwise.sublist (dedupBy_sublist _ _)
      (List.sorted_mergeSort rarbgShowSortLe_trans rarbgShowSortLe_total _)
  · intro ts
    exact List.Pairwise.sublist (dedupBy_sublist _ _)
      (List.sorted_mergeSort rarbgMovieSortLe_trans rarbgMovieSortLe_total _)
  · intro ts
    exact List.Pairwise.sublist (dedupBy_sublist _ _)
      (List.sorted_mergeSort eztvSortLe_trans eztvSortLe_total _)

/-- Witness for the amended C4 at a concrete input: the concurrent
output over the counterexample providers is their concatenated filtered
lists. -/
theorem c4_ordering_amended_witness :
    [eztvItem720, rarbgItem2160] = concurrentMerged .q720p
      [.error "Not a movie", .ok [eztvItem720], .ok [rarbgItem2160]] :=
  c4_ordering_amended.1 .q720p
    [.error "Not a movie", .ok [eztvItem720], .ok [rarbgItem2160]]
    [eztvItem720, rarbgItem2160] (by rfl)

end Roundup
